import Mathlib

set_option maxRecDepth 100000

/-!
Verification of the trading decision-and-execution engine of the
repository (`src/app/tinkoff_service.py`, `src/app/utils.py`,
`src/main.py`, `src/app/recommendation_systems/*`, `src/app/schema.py`).

Monetary values in the source are Python `decimal.Decimal` numbers,
computed in the default context: 28 significant digits, rounding
half-to-even.  A `Decimal` is modelled as a coefficient/exponent pair
`⟨c, e⟩` with value `c·10^e` (the same representation the Python
library uses); every arithmetic operation computes the exact result
and rounds its coefficient back to 28 significant digits with ties to
even, which yields exactly the value the Python operation produces.
Python's `round(d)` on a `Decimal` rounds to the nearest integer with
ties to even.  `decToRat` maps a decimal to its value in `ℚ`, in which
the theorems are stated.
-/

/-- A Python `decimal.Decimal` value: coefficient `c` and exponent `e`,
denoting `c·10^e`.  The representation is not normalised; all theorems
speak about the denoted value `decToRat`. -/
structure Dec where
  c : ℤ
  e : ℤ
deriving DecidableEq, Repr

/-- The rational value denoted by a decimal. -/
def decToRat (x : Dec) : ℚ := (x.c : ℚ) * 10 ^ x.e

/-- Number of decimal digits of `m`, computed with explicit fuel
(recursion on the fuel; `numDigits` instantiates the fuel with the
number itself, which always suffices).  Written with a bare `Nat.rec`
so that evaluation peels the fuel lazily. -/
def numDigitsGo (fuel : Nat) : Nat → Nat :=
  Nat.rec (motive := fun _ => Nat → Nat) (fun _ => 1)
    (fun _ ih m => if m < 10 then 1 else ih (m / 10) + 1) fuel

/-- Number of decimal digits of a natural number (`numDigits 0 = 1`). -/
def numDigits (n : Nat) : Nat := numDigitsGo n n

/-- Round the quotient `a / b` (for `b > 0`) to the nearest integer,
ties to even: Python's `ROUND_HALF_EVEN`, which is also what Python's
built-in `round` does on a `Decimal`. -/
def heDiv (a b : ℤ) : ℤ :=
  let q := a / b
  let r := a - b * q
  if 2 * r < b then q else if b < 2 * r then q + 1 else if q % 2 = 0 then q else q + 1

/-- Round a decimal whose coefficient exceeds 28 digits back to 28
significant digits, ties to even: the final step of every arithmetic
operation in Python's default `decimal` context. -/
def decNorm (x : Dec) : Dec :=
  let n := numDigits x.c.natAbs
  if n ≤ 28 then x else ⟨heDiv x.c (10 ^ (n - 28)), x.e + ((n - 28 : ℕ) : ℤ)⟩

/-- `Decimal` addition in Python's default context: align exponents,
add exactly, round to 28 significant digits. -/
def decAdd (x y : Dec) : Dec :=
  let e := min x.e y.e
  decNorm ⟨x.c * 10 ^ (x.e - e).toNat + y.c * 10 ^ (y.e - e).toNat, e⟩

/-- `Decimal` negation (exact). -/
def decNeg (x : Dec) : Dec := ⟨-x.c, x.e⟩

/-- `Decimal` subtraction in Python's default context. -/
def decSub (x y : Dec) : Dec := decAdd x (decNeg y)

/-- `Decimal` multiplication in Python's default context: multiply
exactly, round to 28 significant digits. -/
def decMul (x y : Dec) : Dec := decNorm ⟨x.c * y.c, x.e + y.e⟩

/-- Whether `10^k ≤ a / b`, for naturals `a, b ≥ 1`. -/
def tenPowLeRat (k : ℤ) (a b : ℕ) : Bool :=
  if 0 ≤ k then b * 10 ^ k.toNat ≤ a else b ≤ a * 10 ^ (-k).toNat

/-- `⌊log₁₀ (a / b)⌋` for naturals `a, b ≥ 1`. -/
def ratLog10 (a b : ℕ) : ℤ :=
  let k : ℤ := (numDigits a : ℤ) - (numDigits b : ℤ)
  if tenPowLeRat k a b then k else k - 1

/-- `Decimal` division in Python's default context: the exact quotient
correctly rounded to 28 significant digits, ties to even.  (A zero
divisor raises in Python; the branch returning `⟨0, 0⟩` for it is never
reached by the modelled code, which divides only by a positive tick
size.) -/
def decDiv (x y : Dec) : Dec :=
  if x.c = 0 then ⟨0, 0⟩
  else if y.c = 0 then ⟨0, 0⟩
  else
    let d : ℤ := ratLog10 x.c.natAbs y.c.natAbs
    let m : ℤ :=
      if 0 ≤ 27 - d then heDiv (x.c * y.c.sign * 10 ^ (27 - d).toNat) (y.c.natAbs : ℤ)
      else heDiv (x.c * y.c.sign) ((y.c.natAbs : ℤ) * 10 ^ (d - 27).toNat)
    ⟨m, x.e - y.e + (d - 27)⟩

/-- Python `round` applied to a `Decimal`: nearest integer, ties to
even. -/
def pyRound (x : Dec) : ℤ :=
  if 0 ≤ x.e then x.c * 10 ^ x.e.toNat else heDiv x.c (10 ^ (-x.e).toNat)

/-- `Decimal` comparison `x ≤ y` (exact: comparison never rounds). -/
def decLe (x y : Dec) : Bool :=
  x.c * 10 ^ (x.e - min x.e y.e).toNat ≤ y.c * 10 ^ (y.e - min x.e y.e).toNat

/-- `Decimal` comparison `x < y` (exact). -/
def decLt (x y : Dec) : Bool :=
  x.c * 10 ^ (x.e - min x.e y.e).toNat < y.c * 10 ^ (y.e - min x.e y.e).toNat

/-- A Python `int` seen as a `Decimal` (exact conversion). -/
def ofInt (z : ℤ) : Dec := ⟨z, 0⟩

/-- `Decimal` value equality (two representations denote the same
number). -/
def decEqv (x y : Dec) : Bool := decLe x y && decLe y x

/-!
### Floating-point constants

`tinkoff_service.py` mixes Python floats into `Decimal` arithmetic:
`Decimal(1.01)` (lines 157 and 197) and
`Decimal(take_profit_percent / 100)` / `Decimal(stop_loss_percent / 100)`
(lines 163–164 and 203–204).  `Decimal(f)` of a float is the *exact*
value of the IEEE-754 double `f`; `x / 100` is performed in
double-precision binary floating point before the conversion.  The
doubles appearing in the claims are recorded here exactly, as dyadic
rationals; each constant is certified as the unique double nearest to
the decimal literal it came from by a theorem below (a 53-bit odd
significand within half an ulp of the literal).
-/

/-- The IEEE-754 double nearest to `1.01`, as a rational. -/
def dbl_1_01 : ℚ := 4548635623644201 / 2 ^ 52

/-- The IEEE-754 double nearest to `0.02` (the value of `2 / 100` in
Python float arithmetic), as a rational. -/
def dbl_0_02 : ℚ := 5764607523034235 / 2 ^ 58

/-- The IEEE-754 double nearest to `0.01` (the value of `1 / 100` in
Python float arithmetic), as a rational. -/
def dbl_0_01 : ℚ := 5764607523034235 / 2 ^ 59

/-- `Decimal(1.01)`: the exact decimal expansion of `dbl_1_01`
(`4548635623644201/2^52 = 4548635623644201·5^52/10^52`). -/
def dec_1_01 : Dec := ⟨4548635623644201 * 5 ^ 52, -52⟩

/-- `Decimal(2 / 100)`: the exact decimal expansion of `dbl_0_02`. -/
def dec_0_02 : Dec := ⟨5764607523034235 * 5 ^ 58, -58⟩

/-- `Decimal(1 / 100)`: the exact decimal expansion of `dbl_0_01`. -/
def dec_0_01 : Dec := ⟨5764607523034235 * 5 ^ 59, -59⟩

/-!
### `TkBroker` money logic (`src/app/tinkoff_service.py`)
-/

/-- The capital-sufficiency test of `TkBroker.post_long_position`
(line 197) and `TkBroker.post_short_position` (line 157):
`self.free_money_for_trading <= (last_price_for_lot * Decimal(1.01))`.
When it holds the method raises `NotFreeCacheForTrading`. -/
def notFreeCacheCheck (freeMoney lastPriceForLot : Dec) : Bool :=
  decLe freeMoney (decMul lastPriceForLot dec_1_01)

/-- The short-exposure accumulation of `TkBroker.free_money_for_trading`
(lines 63–68): starting from `Decimal(0)`, for every portfolio position
`(quantity, current_price)` with `quantity < 0` add
`current_price * quantity`. -/
def shortsMoney (portfolio : List (Dec × Dec)) : Dec :=
  List.foldl
    (fun acc qp => if decLt qp.1 (ofInt 0) then decAdd acc (decMul qp.2 qp.1) else acc)
    (ofInt 0) portfolio

/-- `TkBroker.free_money_for_trading` (lines 57–69): if the positions
response has no money entry return `Decimal(0)`; otherwise return
`money[0] + shorts_money * 2`.  `money` is the list of cash balances
and `portfolio` the list of `(quantity, current_price)` pairs. -/
def free_money_for_trading (money : List Dec) (portfolio : List (Dec × Dec)) : Dec :=
  match money with
  | [] => ofInt 0
  | m :: _ => decAdd m (decMul (shortsMoney portfolio) (ofInt 2))

/-- Tick quantization as submitted by `post_long_position` /
`post_short_position` (lines 174, 180, 214, 220):
`Decimal(round(price / min_price_increment) * min_price_increment)`. -/
def quantizePrice (price inc : Dec) : Dec :=
  decMul (ofInt (pyRound (decDiv price inc))) inc

/-- Raw long take-profit price (line 203):
`current_price + current_price * Decimal(take_profit_percent / 100)`,
with `pct` the `Decimal` of the float `take_profit_percent / 100`. -/
def longTakeProfitRaw (p pct : Dec) : Dec := decAdd p (decMul p pct)

/-- Raw long stop-loss price (line 204):
`current_price - current_price * Decimal(stop_loss_percent / 100)`. -/
def longStopLossRaw (p pct : Dec) : Dec := decSub p (decMul p pct)

/-- Raw short take-profit price (line 163):
`current_price - current_price * Decimal(take_profit_percent / 100)`. -/
def shortTakeProfitRaw (p pct : Dec) : Dec := decSub p (decMul p pct)

/-- Raw short stop-loss price (line 164):
`current_price + current_price * Decimal(stop_loss_percent / 100)`. -/
def shortStopLossRaw (p pct : Dec) : Dec := decAdd p (decMul p pct)

/-- The take-profit price a long entry submits (lines 203, 214). -/
def submittedLongTP (p pct inc : Dec) : Dec := quantizePrice (longTakeProfitRaw p pct) inc

/-- The stop-loss price a long entry submits (lines 204, 220). -/
def submittedLongSL (p pct inc : Dec) : Dec := quantizePrice (longStopLossRaw p pct) inc

/-- The take-profit price a short entry submits (lines 163, 174). -/
def submittedShortTP (p pct inc : Dec) : Dec := quantizePrice (shortTakeProfitRaw p pct) inc

/-- The stop-loss price a short entry submits (lines 164, 180). -/
def submittedShortSL (p pct inc : Dec) : Dec := quantizePrice (shortStopLossRaw p pct) inc

/-!
### Specification-side formulas

These definitions follow the words of the specification (`ComputeBracket`
and `CheckCapital`), not the source; they exist only to be compared with
the source-derived definitions above.  The specification's `round` is
Python's `round`: nearest integer, ties to even.
-/

/-- Nearest integer with ties to even, on rationals: the `round` of the
specification's quantization formula. -/
def heRoundQ (x : ℚ) : ℤ :=
  if x - (⌊x⌋ : ℚ) < 1 / 2 then ⌊x⌋
  else if (1 : ℚ) / 2 < x - (⌊x⌋ : ℚ) then ⌊x⌋ + 1
  else if ⌊x⌋ % 2 = 0 then ⌊x⌋ else ⌊x⌋ + 1

/-- The specification's quantization: `round(price / tickSize) * tickSize`,
in exact rational arithmetic. -/
def specQuantize (price tick : ℚ) : ℚ := (heRoundQ (price / tick) : ℚ) * tick

/-- The specification's long take-profit price:
`quantize(executionPrice × (1 + tp%/100))` with `tp` an exact rational. -/
def specLongTP (p tp tick : ℚ) : ℚ := specQuantize (p * (1 + tp / 100)) tick

/-- The specification's long stop-loss price:
`quantize(executionPrice × (1 − sl%/100))`. -/
def specLongSL (p sl tick : ℚ) : ℚ := specQuantize (p * (1 - sl / 100)) tick

/-- The specification's short take-profit price (signs inverted). -/
def specShortTP (p tp tick : ℚ) : ℚ := specQuantize (p * (1 - tp / 100)) tick

/-- The specification's short stop-loss price (signs inverted). -/
def specShortSL (p sl tick : ℚ) : ℚ := specQuantize (p * (1 + sl / 100)) tick

/-!
### The executor cycle (`src/main.py`) and the scheduler
(`src/app/utils.py`, `repeat_trading_with_time_interval_decorator`)
-/

/-- Modelled from the spec: the `BUY` / `SELL` action constants of
`app/contains.py` (a module of this repository not present under
`src/`; the spec fixes `action ∈ {BUY, SELL}`). -/
inductive TradeAction where
  | buy
  | sell
deriving DecidableEq, Repr

/-- A trading signal as every strategy constructs it and as the
executor consumes it: a ticker and an action (the keyword `ticker=` at
each construction site, the attribute `.ticker` at each read site). -/
structure Signal where
  ticker : String
  action : TradeAction
deriving DecidableEq, Repr

/-- Outcome of one `post_long_position` / `post_short_position` attempt,
as discriminated by the `try/except` of `main` (lines 55–80):
success, `NotFreeCacheForTrading`, `ShortPositionNotAvailable` /
`LongPositionNotAvailable`, or any other (unclassified) exception. -/
inductive PostOutcome where
  | ok
  | notFreeCache
  | sideUnavailable
  | fatal
deriving DecidableEq, Repr

/-- How the `while True` executor loop of `main` (lines 53–80) ends. -/
inductive CycleExit where
  | noRecommendations
  | insufficientCash
  | exhausted
  | fatalReported
  | outOfFuel
deriving DecidableEq, Repr

/-- The executor loop of `main` (lines 53–80).  Each iteration picks
`random.choice(stock_actions)` (modelled by the index `choose k` taken
modulo the current length), posts the position (outcome given by
`post k a`), and reacts as the source does: `NotFreeCacheForTrading`
prints and returns; `ShortPositionNotAvailable`/`LongPositionNotAvailable`
removes the chosen action (first equal element, as Python
`list.remove`) and returns when the list empties; any other exception
sends a Telegram message and returns; success loops with the list
unchanged.  Returns the trace of attempts and how the cycle ended; the
`[]` case is unreachable from `mainCycleResult`, which enters the loop
only with a non-empty list. -/
def runCycleAux (post : ℕ → Signal → PostOutcome) (choose : ℕ → ℕ) :
    ℕ → ℕ → List Signal → List (Signal × PostOutcome) × CycleExit
  | 0, _, _ => ([], .outOfFuel)
  | _ + 1, _, [] => ([], .exhausted)
  | fuel + 1, k, a0 :: rest =>
    let acts := a0 :: rest
    let a := acts.getD (choose k % acts.length) a0
    match post k a with
    | .notFreeCache => ([(a, .notFreeCache)], .insufficientCash)
    | .fatal => ([(a, .fatal)], .fatalReported)
    | .ok =>
      let r := runCycleAux post choose fuel (k + 1) acts
      ((a, .ok) :: r.1, r.2)
    | .sideUnavailable =>
      let acts2 := acts.erase a
      if acts2.isEmpty then ([(a, .sideUnavailable)], .exhausted)
      else
        let r := runCycleAux post choose fuel (k + 1) acts2
        ((a, .sideUnavailable) :: r.1, r.2)

/-- Whether one invocation of `main` returns normally or propagates an
exception to the scheduler loop. -/
inductive CycleBehavior where
  | returnsNormally (exit : CycleExit)
  | raises
deriving DecidableEq, Repr

/-- One decision cycle: the body of `main` (lines 34–80).  The signal
phase (`validate_tickers` + `get_stock_actions`, lines 46–47) runs
outside the `try`, so an exception there propagates out of `main`
(`.raises`); an empty recommendation list returns (line 49–51); a
non-empty list enters the executor loop whose every exit — including
the one reporting an unclassified exception to Telegram (lines 78–80) —
is a normal return from `main`. -/
def mainCycleResult (signalPhase : Except Unit (List Signal))
    (post : ℕ → Signal → PostOutcome) (choose : ℕ → ℕ) (fuel : ℕ) : CycleBehavior :=
  match signalPhase with
  | .error _ => .raises
  | .ok [] => .returnsNormally .noRecommendations
  | .ok (a :: rest) => .returnsNormally (runCycleAux post choose fuel 0 (a :: rest)).2

/-- The scheduler loop of `repeat_trading_with_time_interval_decorator`
(`utils.py` lines 67–80): `while True`, if it is trading time invoke
the decision function (then sleep), else just sleep.  `beh inv` is the
behaviour of invocation number `inv`; an invocation that raises
propagates out of the wrapper and ends the loop.  Returns the number of
decision-cycle invocations performed within `steps` loop iterations,
starting at iteration `i` with `inv` invocations already done. -/
def schedulerLoopCount (trading : ℕ → Bool) (beh : ℕ → CycleBehavior) :
    ℕ → ℕ → ℕ → ℕ
  | 0, _, inv => inv
  | steps + 1, i, inv =>
    if trading i then
      match beh inv with
      | .raises => inv + 1
      | .returnsNormally _ => schedulerLoopCount trading beh steps (i + 1) (inv + 1)
    else schedulerLoopCount trading beh steps (i + 1) inv

/-!
### Instrument catalog (`tinkoff_service.py` lines 85–100, 123–141)

The cached instrument table `shares_df` is modelled by its
`(ticker, figi)` rows; pandas filtering `df[df["ticker"] == t]`
followed by `.iloc[0]` is the first row whose ticker matches.
-/

/-- `TkBroker.get_figi_by_ticker` (lines 85–100): raise
`TickerNotExists` when no row matches, else the first matching row's
figi. -/
def get_figi_by_ticker (rows : List (String × String)) (ticker : String) :
    Except Unit String :=
  match rows.filter (fun r => r.1 == ticker) with
  | [] => .error ()
  | r :: _ => .ok r.2

/-- `TkBroker.validate_tickers` (lines 123–141): for each ticker try
`get_figi_by_ticker`; append it on success, warn and continue on
`TickerNotExists`. -/
def validate_tickers (rows : List (String × String)) :
    List String → List String
  | [] => []
  | t :: ts =>
    match get_figi_by_ticker rows t with
    | .ok _ => t :: validate_tickers rows ts
    | .error _ => validate_tickers rows ts

/-- Whether a ticker resolves in the catalog (no `TickerNotExists`). -/
def resolvesTicker (rows : List (String × String)) (t : String) : Bool :=
  match get_figi_by_ticker rows t with
  | .ok _ => true
  | .error _ => false

/-!
### Strategies (`src/app/recommendation_systems/`)
-/

/-- Modelled from the spec: the `UPTREND` / `DOWNTREND` trend
classification constants of `app/contains.py` (not present under
`src/`); `other` stands for any further classification value, which
matches neither comparison in the composer. -/
inductive Trend where
  | uptrend
  | downtrend
  | other
deriving DecidableEq, Repr

/-- The trend-filter composer
`OnlyByTrendRecommendationSystem.get_stock_actions`
(`only_by_trend_recommendation.py` lines 39–54): for each inner signal,
keep it if the trend is `DOWNTREND` and the action `SELL`, or the trend
is `UPTREND` and the action `BUY`; drop it otherwise.  `trend t` is the
classification `get_trend_by_ticker` returns for ticker `t` (the claim
quantifies over this function). -/
def only_by_trend_actions (trend : String → Trend) :
    List Signal → List Signal
  | [] => []
  | a :: rest =>
    if trend a.ticker = Trend.downtrend ∧ a.action = TradeAction.sell then
      a :: only_by_trend_actions trend rest
    else if trend a.ticker = Trend.uptrend ∧ a.action = TradeAction.buy then
      a :: only_by_trend_actions trend rest
    else only_by_trend_actions trend rest

/-- `Series.iloc[-(k+1)]` on a pandas series modelled as a list:
the element `k` places from the end, raising `IndexError` when the
series is too short. -/
def ilocNeg (l : List ℚ) (k : ℕ) : Except Unit ℚ :=
  if h : k < l.length then .ok (l.get ⟨l.length - 1 - k, by omega⟩) else .error ()

/-- The per-ticker body of
`MovingAverageRecommendationSystem.get_stock_actions`
(`moving_average_recommendation_system.py` lines 91–112), given the
`ema_short` and `ema_long` series.  Python's `and` short-circuits, so
`iloc[-2]` is read only when the `iloc[-1]` comparison holds; the
second `if` re-reads the same `iloc[-1]` values. -/
def maActionsForStock (emaShort emaLong : List ℚ) : Except Unit (List TradeAction) := do
  let s1 ← ilocNeg emaShort 0
  let l1 ← ilocNeg emaLong 0
  let buySig ←
    if l1 < s1 then do
      let s2 ← ilocNeg emaShort 1
      let l2 ← ilocNeg emaLong 1
      pure (decide (s2 ≤ l2))
    else pure false
  let sellSig ←
    if s1 < l1 then do
      let s2 ← ilocNeg emaShort 1
      let l2 ← ilocNeg emaLong 1
      pure (decide (l2 ≤ s2))
    else pure false
  pure ((if buySig then [TradeAction.buy] else []) ++
    (if sellSig then [TradeAction.sell] else []))

/-- `MovingAverageRecommendationSystem.get_stock_actions` over the
ticker batch; `ema t` is the pair of EMA series
`get_ema_by_ticker` returns for ticker `t` (the claim quantifies over
the indicator data). -/
def moving_average_get_stock_actions (ema : String → List ℚ × List ℚ) :
    List String → Except Unit (List Signal)
  | [] => .ok []
  | s :: rest => do
    let acts ← maActionsForStock (ema s).1 (ema s).2
    let others ← moving_average_get_stock_actions ema rest
    pure (acts.map (fun a => ⟨s, a⟩) ++ others)

/-- The exact value of the IEEE-754 double nearest to `0.2`: the float
literal of the oversold test `k_curr < 0.2`. -/
def dbl_0_2 : ℚ := 3602879701896397 / 2 ^ 54

/-- The exact value of the IEEE-754 double nearest to `0.8`: the float
literal of the overbought test `k_curr > 0.8`. -/
def dbl_0_8 : ℚ := 3602879701896397 / 2 ^ 52

/-- The per-ticker body of
`StochasticRSIRecommendationSystem.get_stock_actions`
(`stochastic_rsi_recommendation.py` lines 169–191), given the
`stoch_rsi_k` and `stoch_rsi_d` series: it reads `iloc[-2]` first
(lines 172–173), so any series shorter than two samples raises. -/
def stochRsiActionsForStock (k d : List ℚ) : Except Unit (List TradeAction) := do
  let kPrev ← ilocNeg k 1
  let dPrev ← ilocNeg d 1
  let kCurr ← ilocNeg k 0
  let dCurr ← ilocNeg d 0
  if kPrev < dPrev ∧ dCurr < kCurr ∧ kCurr < dbl_0_2 then pure [TradeAction.buy]
  else if dPrev < kPrev ∧ kCurr < dCurr ∧ dbl_0_8 < kCurr then pure [TradeAction.sell]
  else pure []

/-- `StochasticRSIRecommendationSystem.get_stock_actions` over the
ticker batch; `rsi t` is the pair of `%K`, `%D` series for ticker `t`. -/
def stoch_rsi_get_stock_actions (rsi : String → List ℚ × List ℚ) :
    List String → Except Unit (List Signal)
  | [] => .ok []
  | s :: rest => do
    let acts ← stochRsiActionsForStock (rsi s).1 (rsi s).2
    let others ← stoch_rsi_get_stock_actions rsi rest
    pure (acts.map (fun a => ⟨s, a⟩) ++ others)

/-!
### Retry wrapper (`utils.py` lines 6–28)
-/

/-- `connection_problems_decorator`: `while True: try: return func(...)
except Exception: print and continue`.  `results i` is what the wrapped
call does on its `i`-th invocation; the loop returns the first
successful result.  `fuel` bounds the number of attempts modelled (the
source loop is unbounded). -/
def connectionRetryLoop {E A : Type} (results : ℕ → Except E A) :
    ℕ → ℕ → Option A
  | 0, _ => none
  | fuel + 1, i =>
    match results i with
    | .ok v => some v
    | .error _ => connectionRetryLoop results fuel (i + 1)

/-!
### The `StockAction` schema and its misuse (`schema.py`, strategies)
-/

/-- The record type declared by `schema.py` lines 6–8: a pydantic
`BaseModel` with required fields `stock` and `action`. -/
structure PyStockAction where
  stock : String
  action : String
deriving DecidableEq, Repr

/-- The required field names `StockAction` declares (`schema.py`). -/
def stockActionFields : List String := ["stock", "action"]

/-- The keyword arguments every strategy passes when constructing a
signal (`random_recommendation.py` lines 228–231, and likewise in every
other strategy): `ticker=` and `action=`. -/
def strategyConstructedKeys : List String := ["ticker", "action"]

/-- Keyword lookup among constructor arguments. -/
def lookupKw (kwargs : List (String × String)) (k : String) : Option String :=
  (kwargs.find? (fun p => p.1 == k)).map (fun p => p.2)

/-- Constructing a pydantic `StockAction` from keyword arguments:
every declared field must be supplied (a missing required field raises
`ValidationError`); `action` must satisfy `Literal["BUY", "SELL"]`;
extra keywords are ignored (pydantic's default config). -/
def mkStockAction (kwargs : List (String × String)) : Except Unit PyStockAction :=
  match lookupKw kwargs "stock", lookupKw kwargs "action" with
  | some s, some a => if a = "BUY" ∨ a = "SELL" then .ok ⟨s, a⟩ else .error ()
  | _, _ => .error ()

/-- Python attribute read on a `StockAction` instance: only the
declared fields exist; reading any other name (such as the executor's
`current_stock_action.ticker`, `main.py` line 58) raises
`AttributeError`. -/
def pyGetAttrStockAction (sa : PyStockAction) (name : String) : Except Unit String :=
  if name = "stock" then .ok sa.stock
  else if name = "action" then .ok sa.action
  else .error ()

/-- `RandomRecommendationSystem.get_stock_actions`
(`random_recommendation.py` lines 224–233), constructing the pydantic
model exactly as the source does: `StockAction(ticker=stock,
action=random.choice((BUY, SELL)))`.  `choice i` models the random
draw for the `i`-th stock. -/
def random_get_stock_actions (choice : ℕ → Bool) :
    List String → ℕ → Except Unit (List PyStockAction)
  | [], _ => .ok []
  | s :: rest, i => do
    let sa ← mkStockAction [("ticker", s), ("action", if choice i then "BUY" else "SELL")]
    let others ← random_get_stock_actions choice rest (i + 1)
    pure (sa :: others)

/-!
## Infrastructure lemmas

Digit-count bounds, the error of half-even rounding, and the bridge
between `Dec` computations and their rational values.
-/

theorem numDigitsGo_succ_def (f m : Nat) :
    numDigitsGo (f + 1) m = if m < 10 then 1 else numDigitsGo f (m / 10) + 1 := rfl

theorem numDigitsGo_pos (fuel m : Nat) : 1 ≤ numDigitsGo fuel m := by
  cases fuel with
  | zero => exact le_refl 1
  | succ f =>
    rw [numDigitsGo_succ_def]
    split
    · exact le_refl 1
    · exact Nat.le_add_left 1 _

theorem numDigitsGo_bounds :
    ∀ fuel m : Nat, m ≤ fuel →
      m < 10 ^ numDigitsGo fuel m ∧ (1 ≤ m → 10 ^ (numDigitsGo fuel m - 1) ≤ m) := by
  intro fuel
  induction fuel with
  | zero =>
    intro m hm
    have hm0 : m = 0 := Nat.le_zero.mp hm
    subst hm0
    exact ⟨by norm_num [numDigitsGo], by omega⟩
  | succ f ih =>
    intro m hm
    rw [numDigitsGo_succ_def]
    by_cases h10 : m < 10
    · rw [if_pos h10]
      exact ⟨by simpa using h10, fun h1 => by simpa using h1⟩
    · rw [if_neg h10]
      push_neg at h10
      have hdivle : m / 10 ≤ f := by
        have := Nat.div_lt_self (by omega : 0 < m) (by norm_num : 1 < 10)
        omega
      obtain ⟨h1, h2⟩ := ih (m / 10) hdivle
      have hdm : 10 * (m / 10) + m % 10 = m := Nat.div_add_mod m 10
      have hmod : m % 10 < 10 := Nat.mod_lt _ (by norm_num)
      set d := numDigitsGo f (m / 10) with hd
      have hdpos : 1 ≤ d := numDigitsGo_pos f (m / 10)
      constructor
      · have : m / 10 + 1 ≤ 10 ^ d := h1
        calc m = 10 * (m / 10) + m % 10 := hdm.symm
          _ < 10 * (m / 10) + 10 := by omega
          _ = 10 * (m / 10 + 1) := by ring
          _ ≤ 10 * 10 ^ d := Nat.mul_le_mul_left 10 this
          _ = 10 ^ (d + 1) := by rw [pow_succ, Nat.mul_comm]
      · intro _
        have hq1 : 1 ≤ m / 10 := (Nat.one_le_div_iff (by norm_num)).mpr h10
        have hlow : 10 ^ (d - 1) ≤ m / 10 := h2 hq1
        have : 10 ^ d ≤ 10 * (m / 10) := by
          calc 10 ^ d = 10 * 10 ^ (d - 1) := by
                rw [← pow_succ']
                congr 1
                omega
            _ ≤ 10 * (m / 10) := Nat.mul_le_mul_left 10 hlow
        have h1d : d + 1 - 1 = d := by omega
        rw [h1d]
        omega

theorem numDigits_upper (n : Nat) : n < 10 ^ numDigits n :=
  (numDigitsGo_bounds n n le_rfl).1

theorem numDigits_lower {n : Nat} (h : 1 ≤ n) : 10 ^ (numDigits n - 1) ≤ n :=
  (numDigitsGo_bounds n n le_rfl).2 h

theorem heDiv_def (a b : ℤ) :
    heDiv a b =
      if 2 * (a - b * (a / b)) < b then a / b
      else if b < 2 * (a - b * (a / b)) then a / b + 1
      else if a / b % 2 = 0 then a / b else a / b + 1 := rfl

/-- The quotient-remainder description of `heDiv`. -/
theorem heDiv_cases (a b : ℤ) :
    heDiv a b = a / b ∨ heDiv a b = a / b + 1 := by
  rw [heDiv_def]
  split_ifs <;> simp

/-- Half-even integer division is within one half of the exact
quotient. -/
theorem heDiv_dist (a : ℤ) {b : ℤ} (hb : 0 < b) :
    |(heDiv a b : ℚ) - (a : ℚ) / (b : ℚ)| ≤ 1 / 2 := by
  have hbq : (0 : ℚ) < (b : ℚ) := by exact_mod_cast hb
  have hbne : (b : ℚ) ≠ 0 := ne_of_gt hbq
  set q : ℤ := a / b with hq
  set r : ℤ := a - b * q with hr
  have hrmod : r = a % b := by rw [hr, hq, Int.emod_def]
  have hr0 : 0 ≤ r := by rw [hrmod]; exact Int.emod_nonneg a (ne_of_gt hb)
  have hrb : r < b := by rw [hrmod]; exact Int.emod_lt_of_pos a hb
  have hval : (a : ℚ) / b = (q : ℚ) + (r : ℚ) / b := by
    field_simp
    push_cast [hr]
    ring
  have ht0 : (0 : ℚ) ≤ (r : ℚ) / b := div_nonneg (by exact_mod_cast hr0) hbq.le
  have ht1 : (r : ℚ) / b < 1 := (div_lt_one hbq).mpr (by exact_mod_cast hrb)
  rw [heDiv_def, ← hq, ← hr]
  split
  · rename_i h2r
    have : (r : ℚ) / b < 1 / 2 := by
      rw [div_lt_div_iff hbq (by norm_num)]
      have : (2 * r : ℚ) < (b : ℚ) := by exact_mod_cast h2r
      linarith
    rw [hval]
    rw [abs_le]
    constructor <;> linarith
  split
  · rename_i h2r
    have : 1 / 2 < (r : ℚ) / b := by
      rw [div_lt_div_iff (by norm_num) hbq]
      have : (b : ℚ) < 2 * r := by exact_mod_cast h2r
      linarith
    rw [hval]
    push_cast
    rw [abs_le]
    constructor <;> linarith
  · rename_i h2ra h2rb
    have h2r : 2 * r = b := by omega
    have : (r : ℚ) / b = 1 / 2 := by
      rw [div_eq_div_iff hbne (by norm_num)]
      have : ((2 * r : ℤ) : ℚ) = (b : ℚ) := by exact_mod_cast congrArg (Int.cast) h2r
      push_cast at this
      linarith
    rw [hval]
    split
    · rw [abs_le]; constructor <;> linarith
    · push_cast
      rw [abs_le]
      constructor <;> linarith

theorem tenZpow_pos (e : ℤ) : (0 : ℚ) < 10 ^ e := zpow_pos (by norm_num) e

theorem decToRat_mk (c e : ℤ) : decToRat ⟨c, e⟩ = (c : ℚ) * 10 ^ e := rfl

theorem decToRat_ofInt (z : ℤ) : decToRat (ofInt z) = (z : ℚ) := by
  simp [decToRat, ofInt]

/-- Rescaling a decimal to any exponent `m` below its own leaves its
value unchanged. -/
theorem decToRat_scaled (x : Dec) {m : ℤ} (h : m ≤ x.e) :
    decToRat x = ((x.c * 10 ^ (x.e - m).toNat : ℤ) : ℚ) * 10 ^ m := by
  have htn : ((x.e - m).toNat : ℤ) = x.e - m := Int.toNat_of_nonneg (by omega)
  rw [decToRat]
  push_cast
  rw [← zpow_natCast (10 : ℚ) (x.e - m).toNat, htn, mul_assoc,
    ← zpow_add₀ (by norm_num : (10 : ℚ) ≠ 0), sub_add_cancel]

theorem decLe_iff (x y : Dec) : decLe x y = true ↔ decToRat x ≤ decToRat y := by
  rw [decLe, decide_eq_true_eq,
    decToRat_scaled x (min_le_left x.e y.e), decToRat_scaled y (min_le_right x.e y.e),
    mul_le_mul_right (tenZpow_pos (min x.e y.e)), Int.cast_le]

theorem decLt_iff (x y : Dec) : decLt x y = true ↔ decToRat x < decToRat y := by
  rw [decLt, decide_eq_true_eq,
    decToRat_scaled x (min_le_left x.e y.e), decToRat_scaled y (min_le_right x.e y.e),
    mul_lt_mul_right (tenZpow_pos (min x.e y.e)), Int.cast_lt]

theorem decEqv_iff (x y : Dec) : decEqv x y = true ↔ decToRat x = decToRat y := by
  rw [decEqv, Bool.and_eq_true, decLe_iff, decLe_iff, le_antisymm_iff]

/-- The exact product before context rounding. -/
theorem decToRat_mulExact (x y : Dec) :
    decToRat ⟨x.c * y.c, x.e + y.e⟩ = decToRat x * decToRat y := by
  simp only [decToRat]
  push_cast
  rw [zpow_add₀ (by norm_num : (10 : ℚ) ≠ 0)]
  ring

theorem numDigits_zero : numDigits 0 = 1 := rfl

theorem decNorm_def (x : Dec) :
    decNorm x =
      if numDigits x.c.natAbs ≤ 28 then x
      else ⟨heDiv x.c (10 ^ (numDigits x.c.natAbs - 28)),
        x.e + ((numDigits x.c.natAbs - 28 : ℕ) : ℤ)⟩ := rfl

/-- Context rounding keeps a value within relative error `5·10⁻²⁸`
(half a unit in the 28th significant digit). -/
theorem decNorm_dist (x : Dec) :
    |decToRat (decNorm x) - decToRat x| ≤ |decToRat x| / (2 * 10 ^ 27) := by
  rw [decNorm_def]
  by_cases h : numDigits x.c.natAbs ≤ 28
  · rw [if_pos h]
    simp only [sub_self, abs_zero]
    positivity
  · rw [if_neg h]
    push_neg at h
    have hc0 : x.c ≠ 0 := by
      intro h0
      rw [h0] at h
      simp [numDigits_zero] at h
    set n := numDigits x.c.natAbs with hn
    set k := n - 28 with hk
    have hkpos : 1 ≤ k := by omega
    have hb : (0 : ℤ) < 10 ^ k := by positivity
    have hdist := heDiv_dist x.c hb
    have hsplit : (10 : ℚ) ^ (x.e + (k : ℤ)) = 10 ^ (x.e : ℤ) * 10 ^ (k : ℕ) := by
      rw [zpow_add₀ (by norm_num : (10 : ℚ) ≠ 0), zpow_natCast]
    have hten : ((10 : ℚ) ^ (k : ℕ)) ≠ 0 := by positivity
    have hxval : decToRat x = ((x.c : ℚ) / 10 ^ (k : ℕ)) * 10 ^ (x.e + (k : ℤ)) := by
      rw [decToRat, hsplit]
      field_simp
      ring
    have hnorm : decToRat ⟨heDiv x.c (10 ^ k), x.e + (k : ℤ)⟩ =
        (heDiv x.c (10 ^ k) : ℚ) * 10 ^ (x.e + (k : ℤ)) := rfl
    have hcast : ((10 ^ k : ℤ) : ℚ) = 10 ^ (k : ℕ) := by push_cast; rfl
    rw [hcast] at hdist
    have hD : |decToRat ⟨heDiv x.c (10 ^ k), x.e + (k : ℤ)⟩ - decToRat x| ≤
        1 / 2 * 10 ^ (x.e + (k : ℤ)) := by
      rw [hnorm, hxval, ← sub_mul, abs_mul, abs_of_pos (tenZpow_pos (x.e + (k : ℤ)))]
      exact mul_le_mul_of_nonneg_right hdist (tenZpow_pos _).le
    have hlow : (10 : ℚ) ^ (n - 1 : ℕ) ≤ |(x.c : ℚ)| := by
      have h1 : 1 ≤ x.c.natAbs := by
        have h2 : x.c.natAbs ≠ 0 := fun h0 => hc0 (Int.natAbs_eq_zero.mp h0)
        omega
      have h3 := numDigits_lower (n := x.c.natAbs) h1
      rw [← hn] at h3
      have hcastabs : |(x.c : ℚ)| = (x.c.natAbs : ℚ) := by
        rw [Int.cast_natAbs, Int.cast_abs]
      rw [hcastabs]
      exact_mod_cast h3
    have habs : |decToRat x| = |(x.c : ℚ)| * 10 ^ (x.e : ℤ) := by
      rw [decToRat, abs_mul, abs_of_pos (tenZpow_pos x.e)]
    have hpow : (10 : ℚ) ^ (k : ℕ) * 10 ^ 27 = 10 ^ (n - 1 : ℕ) := by
      rw [← pow_add]
      congr 1
      omega
    have hB : (1 : ℚ) / 2 * 10 ^ (x.e + (k : ℤ)) ≤ |decToRat x| / (2 * 10 ^ 27) := by
      rw [habs, hsplit, le_div_iff (by positivity : (0 : ℚ) < 2 * 10 ^ 27)]
      calc (1 : ℚ) / 2 * ((10 : ℚ) ^ (x.e : ℤ) * (10 : ℚ) ^ (k : ℕ)) * (2 * 10 ^ 27)
          = (10 : ℚ) ^ (k : ℕ) * (10 : ℚ) ^ (27 : ℕ) * (10 : ℚ) ^ (x.e : ℤ) := by ring
        _ = (10 : ℚ) ^ (n - 1 : ℕ) * (10 : ℚ) ^ (x.e : ℤ) := by rw [hpow]
        _ ≤ |(x.c : ℚ)| * 10 ^ (x.e : ℤ) := mul_le_mul_of_nonneg_right hlow (tenZpow_pos _).le
    exact hD.trans hB

/-!
## Certification of the floating-point constants
-/

/-- `dbl_1_01` has a 53-bit significand and is within half an ulp
(`2^-53`) of `101/100`: it is the double nearest to `1.01`, and it is
strictly larger than `101/100`. -/
theorem dbl_1_01_is_nearest_double :
    2 ^ 52 ≤ (4548635623644201 : ℤ) ∧ (4548635623644201 : ℤ) < 2 ^ 53 ∧
    |dbl_1_01 - 101 / 100| ≤ 1 / 2 ^ 53 ∧ 101 / 100 < dbl_1_01 := by
  refine ⟨by norm_num, by norm_num, ?_, by rw [dbl_1_01]; norm_num⟩
  rw [dbl_1_01, abs_le]
  constructor <;> norm_num

/-- `dbl_0_02` has a 53-bit significand and is within half an ulp
(`2^-59`) of `2/100`: it is the double nearest to `0.02`. -/
theorem dbl_0_02_is_nearest_double :
    2 ^ 52 ≤ (5764607523034235 : ℤ) ∧ (5764607523034235 : ℤ) < 2 ^ 53 ∧
    |dbl_0_02 - 2 / 100| ≤ 1 / 2 ^ 59 := by
  refine ⟨by norm_num, by norm_num, ?_⟩
  rw [dbl_0_02, abs_le]
  constructor <;> norm_num

/-- `dbl_0_01` has a 53-bit significand and is within half an ulp
(`2^-60`) of `1/100`: it is the double nearest to `0.01`. -/
theorem dbl_0_01_is_nearest_double :
    2 ^ 52 ≤ (5764607523034235 : ℤ) ∧ (5764607523034235 : ℤ) < 2 ^ 53 ∧
    |dbl_0_01 - 1 / 100| ≤ 1 / 2 ^ 60 := by
  refine ⟨by norm_num, by norm_num, ?_⟩
  rw [dbl_0_01, abs_le]
  constructor <;> norm_num

/-- The `Decimal` constant `dec_1_01` denotes exactly the double
`dbl_1_01`. -/
theorem decToRat_dec_1_01 : decToRat dec_1_01 = dbl_1_01 := by
  rw [dec_1_01, decToRat_mk, dbl_1_01]
  norm_num

/-- The `Decimal` constant `dec_0_02` denotes exactly the double
`dbl_0_02`. -/
theorem decToRat_dec_0_02 : decToRat dec_0_02 = dbl_0_02 := by
  rw [dec_0_02, decToRat_mk, dbl_0_02]
  norm_num

/-- The `Decimal` constant `dec_0_01` denotes exactly the double
`dbl_0_01`. -/
theorem decToRat_dec_0_01 : decToRat dec_0_01 = dbl_0_01 := by
  rw [dec_0_01, decToRat_mk, dbl_0_01]
  norm_num

/-!
## The claims
-/

/-- C6: for every catalog and every input list of tickers,
`validate_tickers` returns the subsequence of its input consisting of
exactly the tickers that resolve in the catalog, preserving their
relative order (it equals `filter` by resolvability and is a sublist of
the input), and it is a total function — unknown tickers are skipped,
never raised. -/
theorem validate_tickers_resolving_subsequence (rows : List (String × String))
    (l : List String) :
    validate_tickers rows l = l.filter (resolvesTicker rows) ∧
    (validate_tickers rows l).Sublist l := by
  have heq : validate_tickers rows l = l.filter (resolvesTicker rows) := by
    induction l with
    | nil => rfl
    | cons t ts ih =>
      rw [validate_tickers, List.filter_cons]
      cases h : get_figi_by_ticker rows t with
      | ok v => rw [ih, if_pos (by rw [resolvesTicker, h])]
      | error e => rw [ih, if_neg (by rw [resolvesTicker, h]; exact Bool.false_ne_true)]
  exact ⟨heq, heq ▸ List.filter_sublist l⟩

/-- C7: the trend-filter composer keeps an inner signal `(t, BUY)` iff
the inner strategy produced it and `t` classifies as an uptrend, keeps
`(t, SELL)` iff produced and classified as a downtrend, and drops every
other inner signal. -/
theorem only_by_trend_filter_spec (trend : String → Trend) (inner : List Signal)
    (s : Signal) :
    s ∈ only_by_trend_actions trend inner ↔
      s ∈ inner ∧
        ((s.action = TradeAction.buy ∧ trend s.ticker = Trend.uptrend) ∨
          (s.action = TradeAction.sell ∧ trend s.ticker = Trend.downtrend)) := by
  induction inner with
  | nil => simp [only_by_trend_actions]
  | cons a rest ih =>
    rw [only_by_trend_actions]
    split_ifs with h1 h2
    · simp only [List.mem_cons, ih]
      constructor
      · rintro (rfl | ⟨hs, hcond⟩)
        · exact ⟨Or.inl rfl, Or.inr ⟨h1.2, h1.1⟩⟩
        · exact ⟨Or.inr hs, hcond⟩
      · rintro ⟨rfl | hs, hcond⟩
        · exact Or.inl rfl
        · exact Or.inr ⟨hs, hcond⟩
    · simp only [List.mem_cons, ih]
      constructor
      · rintro (rfl | ⟨hs, hcond⟩)
        · exact ⟨Or.inl rfl, Or.inl ⟨h2.2, h2.1⟩⟩
        · exact ⟨Or.inr hs, hcond⟩
      · rintro ⟨rfl | hs, hcond⟩
        · exact Or.inl rfl
        · exact Or.inr ⟨hs, hcond⟩
    · rw [ih]
      constructor
      · rintro ⟨hs, hcond⟩
        exact ⟨List.mem_cons_of_mem a hs, hcond⟩
      · rintro ⟨hmem, hcond⟩
        rcases List.mem_cons.mp hmem with rfl | hs
        · rcases hcond with ⟨hb, hu⟩ | ⟨hsell, hd⟩
          · exact absurd ⟨hu, hb⟩ h2
          · exact absurd ⟨hd, hsell⟩ h1
        · exact ⟨hs, hcond⟩

/-- Helper for C9: the retry loop started anywhere skips the failing
prefix and returns the first success. -/
theorem connectionRetryLoop_shift {E A : Type} (results : ℕ → Except E A) (v : A) :
    ∀ (N j : ℕ), (∀ i, i < N → ∃ e, results (j + i) = .error e) →
      results (j + N) = .ok v →
      connectionRetryLoop results (N + 1) j = some v := by
  intro N
  induction N with
  | zero =>
    intro j _ hsucc
    rw [connectionRetryLoop]
    rw [Nat.add_zero] at hsucc
    rw [hsucc]
  | succ N ih =>
    intro j hfail hsucc
    obtain ⟨e, he⟩ := hfail 0 (Nat.succ_pos N)
    rw [Nat.add_zero] at he
    rw [connectionRetryLoop, he]
    refine ih (j + 1) (fun i hi => ?_) ?_
    · obtain ⟨e2, he2⟩ := hfail (i + 1) (by omega)
      exact ⟨e2, by rw [show j + 1 + i = j + (i + 1) by omega]; exact he2⟩
    · rw [show j + 1 + N = j + (N + 1) by omega]
      exact hsucc

/-- C9: if a wrapped operation fails on its first `N` invocations and
returns `v` on invocation `N + 1`, the retry wrapper
`connection_problems_decorator` returns `v`, propagating none of the
`N` intermediate exceptions. -/
theorem connection_retry_returns_first_success {E A : Type}
    (results : ℕ → Except E A) (N : ℕ) (v : A)
    (hfail : ∀ i, i < N → ∃ e, results i = .error e)
    (hsucc : results N = .ok v) :
    connectionRetryLoop results (N + 1) 0 = some v := by
  refine connectionRetryLoop_shift results v N 0 (fun i hi => ?_) (by simpa using hsucc)
  simpa using hfail i hi

/-- Witness for C9: an operation failing twice then returning `7` on
the third call; the wrapper returns `some 7`. -/
theorem connection_retry_returns_first_success_witness :
    connectionRetryLoop (fun i => if i < 2 then Except.error () else Except.ok 7) 3 0 =
      some 7 := by
  refine connection_retry_returns_first_success _ 2 7 (fun i hi => ⟨(), ?_⟩) (by norm_num)
  interval_cases i <;> rfl

/-- C10: `StockAction` declares required fields `stock` and `action`,
but every strategy constructs signals with the keyword `ticker` and the
executor reads the attribute `.ticker`; consequently, for every
non-empty ticker list and every random draw, the random baseline
strategy raises a validation error instead of returning a signal list,
and reading `.ticker` from an actual `StockAction` raises. -/
theorem stockAction_schema_mismatch :
    (∀ (choice : ℕ → Bool) (stocks : List String) (i : ℕ), stocks ≠ [] →
      random_get_stock_actions choice stocks i = .error ()) ∧
    (∀ sa : PyStockAction, pyGetAttrStockAction sa "ticker" = .error ()) ∧
    "stock" ∉ strategyConstructedKeys ∧ stockActionFields = ["stock", "action"] := by
  refine ⟨fun choice stocks i hne => ?_, fun sa => rfl, by decide, rfl⟩
  cases stocks with
  | nil => exact absurd rfl hne
  | cons s rest => rfl

/-- Witness for C10: the random strategy on the one-element batch
`["AAPL"]` raises the validation error. -/
theorem stockAction_schema_mismatch_witness :
    random_get_stock_actions (fun _ => true) ["AAPL"] 0 = .error () :=
  stockAction_schema_mismatch.1 (fun _ => true) ["AAPL"] 0 (List.cons_ne_nil _ _)

/-- C1 (code bug): an unclassified exception during the posting phase
of a cycle is caught by `main`'s blanket `except Exception` (which
sends "Program finish with error" to Telegram and returns), so the
cycle ends as a *normal* return with `fatalReported` — and the
scheduler loop, which stops only when an invocation raises, performs
further decision-cycle invocations afterwards (here: 2 invocations in
2 trading-time iterations).  Only a cycle that actually raises (signal
phase) stops the loop after its invocation. -/
theorem scheduler_continues_after_reported_fatal :
    mainCycleResult (Except.ok [⟨"SBER", TradeAction.buy⟩]) (fun _ _ => PostOutcome.fatal)
        (fun _ => 0) 5 = CycleBehavior.returnsNormally CycleExit.fatalReported ∧
    schedulerLoopCount (fun _ => true)
        (fun _ => CycleBehavior.returnsNormally CycleExit.fatalReported) 2 0 0 = 2 ∧
    schedulerLoopCount (fun _ => true) (fun _ => CycleBehavior.raises) 2 0 0 = 1 := by
  exact ⟨rfl, rfl, rfl⟩

/-- C2 (counterexample): with a lot price of `2^52` and free capital
`4548635623644200.97`, the code raises `NotFreeCacheForTrading`
although free capital strictly exceeds `lastPricePerLot * 101/100`
(the threshold the claim states): the code's `Decimal(1.01)` is the
double `1.0100000000000000088817…`, whose product with `2^52` is the
integer `4548635623644201`. -/
theorem notFreeCache_threshold_counterexample :
    notFreeCacheCheck ⟨454863562364420097, -2⟩ (ofInt (2 ^ 52)) = true ∧
    ¬(decToRat ⟨454863562364420097, -2⟩ ≤ decToRat (ofInt (2 ^ 52)) * (101 / 100)) := by
  constructor
  · decide
  · rw [decToRat_ofInt, decToRat_mk]
    norm_num

theorem getLast?_cons_eq {α : Type} (x y : α) (l : List α) (h : l.getLast? = some y) :
    (x :: l).getLast? = some y := by
  cases l with
  | nil => simp at h
  | cons b bs => rw [List.getLast?_cons_cons]; exact h

/-- Helper for C2: the threshold check fires on everything at or below
`lot · 101/100` (the double `1.01` lies strictly above `101/100`, and
context rounding of the product cannot undershoot it). -/
theorem notFreeCache_fires_on_rational_threshold (freeMoney lot : Dec)
    (hlot : 0 < decToRat lot)
    (hfree : decToRat freeMoney ≤ decToRat lot * (101 / 100)) :
    notFreeCacheCheck freeMoney lot = true := by
  rw [notFreeCacheCheck, decLe_iff]
  refine hfree.trans ?_
  have hmul : decToRat ⟨lot.c * dec_1_01.c, lot.e + dec_1_01.e⟩ = decToRat lot * dbl_1_01 := by
    rw [decToRat_mulExact, decToRat_dec_1_01]
  have hpos : 0 < decToRat lot * dbl_1_01 :=
    mul_pos hlot (by rw [dbl_1_01]; norm_num)
  have hdist := decNorm_dist ⟨lot.c * dec_1_01.c, lot.e + dec_1_01.e⟩
  rw [hmul, abs_of_pos hpos] at hdist
  have hdef : decMul lot dec_1_01 = decNorm ⟨lot.c * dec_1_01.c, lot.e + dec_1_01.e⟩ := rfl
  rw [hdef]
  have h1 : decToRat lot * dbl_1_01 - decToRat lot * dbl_1_01 / (2 * 10 ^ 27) ≤
      decToRat (decNorm ⟨lot.c * dec_1_01.c, lot.e + dec_1_01.e⟩) := by
    have h2 := (abs_le.mp hdist).1
    linarith
  refine le_trans ?_ h1
  have hfact : decToRat lot * dbl_1_01 - decToRat lot * dbl_1_01 / (2 * 10 ^ 27) =
      decToRat lot * (dbl_1_01 * (1 - 1 / (2 * 10 ^ 27))) := by ring
  rw [hfact]
  refine mul_le_mul_of_nonneg_left ?_ hlot.le
  rw [dbl_1_01]
  norm_num

/-- Helper for C2: once a posting attempt raises
`NotFreeCacheForTrading`, the executor loop ends immediately — the
insufficient-capital attempt is the last entry of the trace and the
cycle exits with `insufficientCash`. -/
theorem runCycle_notFreeCache_terminal (post : ℕ → Signal → PostOutcome)
    (choose : ℕ → ℕ) :
    ∀ (fuel k : ℕ) (acts : List Signal) (s : Signal),
      (s, PostOutcome.notFreeCache) ∈ (runCycleAux post choose fuel k acts).1 →
      (runCycleAux post choose fuel k acts).1.getLast? =
        some (s, PostOutcome.notFreeCache) ∧
      (runCycleAux post choose fuel k acts).2 = CycleExit.insufficientCash := by
  intro fuel
  induction fuel with
  | zero =>
    intro k acts s hmem
    simp [runCycleAux] at hmem
  | succ fuel ih =>
    intro k acts s hmem
    cases acts with
    | nil => simp [runCycleAux] at hmem
    | cons a0 rest =>
      rw [runCycleAux] at hmem ⊢
      revert hmem
      cases hp : post k ((a0 :: rest).getD (choose k % (a0 :: rest).length) a0) with
      | notFreeCache =>
        intro hmem
        simp only [List.mem_singleton, Prod.mk.injEq] at hmem
        rw [hmem.1]
        exact ⟨rfl, rfl⟩
      | fatal =>
        intro hmem
        simp at hmem
      | ok =>
        intro hmem
        simp only [List.mem_cons, Prod.mk.injEq] at hmem
        rcases hmem with ⟨_, hbad⟩ | hmem
        · exact absurd hbad (by simp)
        · obtain ⟨hlast, hexit⟩ := ih (k + 1) (a0 :: rest) s hmem
          exact ⟨getLast?_cons_eq _ _ _ hlast, hexit⟩
      | sideUnavailable =>
        intro hmem
        by_cases hemp : ((a0 :: rest).erase
            ((a0 :: rest).getD (choose k % (a0 :: rest).length) a0)).isEmpty
        · rw [if_pos hemp] at hmem
          simp at hmem
        · rw [if_neg hemp] at hmem ⊢
          simp only [List.mem_cons, Prod.mk.injEq] at hmem
          rcases hmem with ⟨_, hbad⟩ | hmem
          · exact absurd hbad (by simp)
          · obtain ⟨hlast, hexit⟩ := ih (k + 1) _ s hmem
            exact ⟨getLast?_cons_eq _ _ _ hlast, hexit⟩

/-- C2 (amended): the insufficient-capital exception is raised at least
whenever `freeCapital() ≤ lastPricePerLot · 101/100` — the code's
threshold `lastPricePerLot · Decimal(1.01)` (the double, context
rounded) lies strictly above the claimed rational threshold, as the
counterexample shows — and when it is raised the executor terminates
the current cycle, attempting no further signals from the candidate
set. -/
theorem notFreeCache_amended :
    (∀ freeMoney lot : Dec, 0 < decToRat lot →
      decToRat freeMoney ≤ decToRat lot * (101 / 100) →
      notFreeCacheCheck freeMoney lot = true) ∧
    (∀ (post : ℕ → Signal → PostOutcome) (choose : ℕ → ℕ) (fuel k : ℕ)
      (acts : List Signal) (s : Signal),
      (s, PostOutcome.notFreeCache) ∈ (runCycleAux post choose fuel k acts).1 →
      (runCycleAux post choose fuel k acts).1.getLast? =
        some (s, PostOutcome.notFreeCache) ∧
      (runCycleAux post choose fuel k acts).2 = CycleExit.insufficientCash) :=
  ⟨notFreeCache_fires_on_rational_threshold,
    fun post choose => runCycle_notFreeCache_terminal post choose⟩

/-- Witness for C2 (amended): free capital `100`, lot price `1000`
raises; and a cycle whose first attempt hits insufficient capital ends
there with `insufficientCash`. -/
theorem notFreeCache_amended_witness :
    notFreeCacheCheck (ofInt 100) (ofInt 1000) = true ∧
    (runCycleAux (fun _ _ => PostOutcome.notFreeCache) (fun _ => 0) 3 0
        [⟨"SBER", TradeAction.buy⟩]).1.getLast? =
      some (⟨"SBER", TradeAction.buy⟩, PostOutcome.notFreeCache) ∧
    (runCycleAux (fun _ _ => PostOutcome.notFreeCache) (fun _ => 0) 3 0
        [⟨"SBER", TradeAction.buy⟩]).2 = CycleExit.insufficientCash := by
  obtain ⟨h1, h2⟩ := notFreeCache_amended.2 (fun _ _ => PostOutcome.notFreeCache)
    (fun _ => 0) 3 0 [⟨"SBER", TradeAction.buy⟩] ⟨"SBER", TradeAction.buy⟩ (by decide)
  refine ⟨notFreeCache_amended.1 (ofInt 100) (ofInt 1000) ?_ ?_, h1, h2⟩
  · rw [decToRat_ofInt]; norm_num
  · rw [decToRat_ofInt, decToRat_ofInt]; norm_num

theorem decAdd_def (x y : Dec) :
    decAdd x y = decNorm ⟨x.c * 10 ^ (x.e - min x.e y.e).toNat +
      y.c * 10 ^ (y.e - min x.e y.e).toNat, min x.e y.e⟩ := rfl

/-- Helper for C5: positions with non-negative quantity never touch the
short-exposure accumulator. -/
theorem shortsMoney_no_shorts :
    ∀ (pf : List (Dec × Dec)), (∀ qp ∈ pf, (0 : ℚ) ≤ decToRat qp.1) →
      shortsMoney pf = ofInt 0 := by
  have haux : ∀ (pf : List (Dec × Dec)) (acc : Dec),
      (∀ qp ∈ pf, (0 : ℚ) ≤ decToRat qp.1) →
      List.foldl
        (fun acc qp => if decLt qp.1 (ofInt 0) then decAdd acc (decMul qp.2 qp.1) else acc)
        acc pf = acc := by
    intro pf
    induction pf with
    | nil => intro acc _; rfl
    | cons qp rest ih =>
      intro acc h
      rw [List.foldl_cons, if_neg, ih acc (fun x hx => h x (List.mem_cons_of_mem qp hx))]
      intro hlt
      have := (decLt_iff qp.1 (ofInt 0)).mp hlt
      rw [decToRat_ofInt] at this
      exact absurd (h qp (List.mem_cons_self qp rest)) (by push_cast at this ⊢; linarith)
  intro pf h
  exact haux pf (ofInt 0) h

/-- C5 (amended): `free_money_for_trading` returns exactly `0` when the
account exposes no cash entry, and exactly the cash balance when no
portfolio position has negative quantity (for any cash balance
representable at context precision, i.e. at most 28 coefficient digits
and non-positive exponent, which holds for every value the API's
`money_to_decimal` produces).  In general it returns
`cash + 2·shortExposure` computed in 28-significant-digit decimal
arithmetic, each product and accumulation rounded half-to-even — not
the exact rational formula of the claim (see the counterexample). -/
theorem free_money_amended :
    (∀ pf, free_money_for_trading [] pf = ofInt 0) ∧
    (∀ (m : Dec) (ms : List Dec) (pf : List (Dec × Dec)),
      (∀ qp ∈ pf, (0 : ℚ) ≤ decToRat qp.1) → m.e ≤ 0 →
      numDigits m.c.natAbs ≤ 28 →
      decToRat (free_money_for_trading (m :: ms) pf) = decToRat m) := by
  refine ⟨fun pf => rfl, fun m ms pf hpf hme h28 => ?_⟩
  show decToRat (decAdd m (decMul (shortsMoney pf) (ofInt 2))) = decToRat m
  rw [shortsMoney_no_shorts pf hpf]
  have h2 : decMul (ofInt 0) (ofInt 2) = ofInt 0 := by decide
  rw [h2, decAdd_def]
  have hmin : min m.e (ofInt 0).e = m.e := min_eq_left (by exact hme)
  rw [hmin]
  have hco : m.c * 10 ^ (m.e - m.e).toNat + (ofInt 0).c * 10 ^ ((ofInt 0).e - m.e).toNat =
      m.c := by
    simp [ofInt]
  rw [hco, decNorm_def]
  rw [if_pos (by exact h28)]

/-- C5 (counterexample): a snapshot with cash `1` and one short
position of quantity `-1.5` at price `1.000000000000000000000000001`
(28 significant digits, within the API's value domain): the product has
29 digits, the context rounds it half-to-even, and the code returns
`-2.000000000000000000000000004` while the claim's exact formula
`cash + 2·Σ currentPrice·quantity` gives
`-2.000000000000000000000000003`. -/
theorem free_money_formula_counterexample :
    decToRat (free_money_for_trading [ofInt 1]
        [(⟨-15, -1⟩, ⟨1000000000000000000000000001, -27⟩)]) ≠
      decToRat (ofInt 1) +
        2 * (decToRat ⟨1000000000000000000000000001, -27⟩ * decToRat ⟨-15, -1⟩) := by
  have h : decEqv (free_money_for_trading [ofInt 1]
      [(⟨-15, -1⟩, ⟨1000000000000000000000000001, -27⟩)])
      ⟨-2000000000000000000000000004, -27⟩ = true := by decide
  rw [(decEqv_iff _ _).mp h, decToRat_ofInt, decToRat_mk, decToRat_mk, decToRat_mk]
  norm_num

/-- Witness for C5 (amended): no cash entry gives `0`; cash `5` with a
single long position gives exactly `5`. -/
theorem free_money_amended_witness :
    free_money_for_trading [] [] = ofInt 0 ∧
    decToRat (free_money_for_trading [ofInt 5] [(ofInt 3, ofInt 7)]) = (5 : ℚ) := by
  refine ⟨free_money_amended.1 [], ?_⟩
  have h := free_money_amended.2 (ofInt 5) [] [(ofInt 3, ofInt 7)]
    (fun qp hqp => ?_) (le_refl 0) (by decide)
  · rw [h, decToRat_ofInt]
    norm_num
  · simp only [List.mem_singleton] at hqp
    rw [hqp, decToRat_ofInt]
    norm_num

/-- C3 (counterexample): execution price `150`, take-profit `2 %`,
tick size `2`.  The claim's exact formula gives
`round((150·(1 + 2/100))/2)·2 = round(76.5)·2 = 76·2 = 152` (tie,
rounded half-to-even), but the code's float-contaminated percent makes
the quotient land strictly above `76.5`, so the code submits `154`. -/
theorem bracket_spec_formula_counterexample :
    decToRat (submittedLongTP (ofInt 150) dec_0_02 (ofInt 2)) = 154 ∧
    specLongTP 150 2 2 = 152 ∧
    decToRat (submittedLongTP (ofInt 150) dec_0_02 (ofInt 2)) ≠ specLongTP 150 2 2 := by
  have hcode : submittedLongTP (ofInt 150) dec_0_02 (ofInt 2) = ⟨154, 0⟩ := by decide
  have h1 : decToRat (submittedLongTP (ofInt 150) dec_0_02 (ofInt 2)) = 154 := by
    rw [hcode, decToRat_mk]
    norm_num
  have hfl : (⌊(153 / 2 : ℚ)⌋ : ℤ) = 76 := by
    rw [Int.floor_eq_iff]
    constructor <;> norm_num
  have h2 : specLongTP 150 2 2 = 152 := by
    rw [specLongTP, specQuantize]
    have harg : (150 : ℚ) * (1 + 2 / 100) / 2 = 153 / 2 := by norm_num
    rw [harg]
    unfold heRoundQ
    rw [hfl]
    norm_num
  exact ⟨h1, h2, by rw [h1, h2]; norm_num⟩

/-- C3 (amended): the short bracket is the sign-inverted long bracket —
the short take-profit is computed by the long stop-loss formula and the
short stop-loss by the long take-profit formula — where each percent
enters as the `Decimal` of the double `percent / 100` and the
arithmetic is 28-digit decimal context arithmetic with half-even
quantization; at the cited instance (price `100`, tp `2 %`, sl `1 %`,
tick `0.05`) the submitted long prices are exactly `102.00` and
`99.00`, both as the code computes them and by the specification's
exact-rational formula. -/
theorem bracket_amended :
    (∀ p pct inc : Dec, submittedShortTP p pct inc = submittedLongSL p pct inc ∧
      submittedShortSL p pct inc = submittedLongTP p pct inc) ∧
    (decToRat (submittedLongTP (ofInt 100) dec_0_02 ⟨5, -2⟩) = 102 ∧
      decToRat (submittedLongSL (ofInt 100) dec_0_01 ⟨5, -2⟩) = 99) ∧
    (specLongTP 100 2 (1 / 20) = 102 ∧ specLongSL 100 1 (1 / 20) = 99) := by
  refine ⟨fun p pct inc => ⟨rfl, rfl⟩, ⟨?_, ?_⟩, ?_, ?_⟩
  · have h : submittedLongTP (ofInt 100) dec_0_02 ⟨5, -2⟩ = ⟨10200, -2⟩ := by decide
    rw [h, decToRat_mk]
    norm_num
  · have h : submittedLongSL (ofInt 100) dec_0_01 ⟨5, -2⟩ = ⟨9900, -2⟩ := by decide
    rw [h, decToRat_mk]
    norm_num
  · rw [specLongTP, specQuantize]
    have harg : (100 : ℚ) * (1 + 2 / 100) / (1 / 20) = 2040 := by norm_num
    have hf : (⌊(2040 : ℚ)⌋ : ℤ) = 2040 := by
      rw [Int.floor_eq_iff]
      constructor <;> norm_num
    rw [harg]
    unfold heRoundQ
    rw [hf]
    norm_num
  · rw [specLongSL, specQuantize]
    have harg : (100 : ℚ) * (1 - 1 / 100) / (1 / 20) = 1980 := by norm_num
    have hf : (⌊(1980 : ℚ)⌋ : ℤ) = 1980 := by
      rw [Int.floor_eq_iff]
      constructor <;> norm_num
    rw [harg]
    unfold heRoundQ
    rw [hf]
    norm_num

/-- C4 (counterexample): price `100`, take-profit percent `6.25`
(`6.25/100 = 0.0625`, exactly representable, so no float error is
involved), tick size `1000` — all strictly positive — yet the submitted
take-profit price is `round(106.25/1000)·1000 = 0`, which is not above
the entry price. -/
theorem bracket_order_counterexample :
    (0 : ℚ) < decToRat ⟨625, -4⟩ ∧ (0 : ℚ) < decToRat (ofInt 1000) ∧
    (0 : ℚ) < decToRat (ofInt 100) ∧
    decToRat (submittedLongTP (ofInt 100) ⟨625, -4⟩ (ofInt 1000)) = 0 ∧
    ¬(decToRat (ofInt 100) < decToRat (submittedLongTP (ofInt 100) ⟨625, -4⟩ (ofInt 1000))) := by
  have h : submittedLongTP (ofInt 100) ⟨625, -4⟩ (ofInt 1000) = ⟨0, 0⟩ := by decide
  refine ⟨?_, ?_, ?_, ?_, ?_⟩
  · rw [decToRat_mk]; norm_num
  · rw [decToRat_ofInt]; norm_num
  · rw [decToRat_ofInt]; norm_num
  · rw [h, decToRat_mk]; norm_num
  · rw [h, decToRat_ofInt, decToRat_mk]; norm_num

/-- C4 (amended): the bracket ordering holds for a leg as soon as tick
quantization moves its price by less than that leg's raw offset from
the entry price: under those hypotheses, for a long entry
take-profit > entry > stop-loss, and for a short entry (whose legs are
computed by the sign-inverted formulas) take-profit < entry <
stop-loss. -/
theorem bracket_order_amended (p pctUp pctDn inc : Dec)
    (hTP : |decToRat (submittedLongTP p pctUp inc) - decToRat (longTakeProfitRaw p pctUp)| <
      decToRat (longTakeProfitRaw p pctUp) - decToRat p)
    (hSL : |decToRat (submittedLongSL p pctDn inc) - decToRat (longStopLossRaw p pctDn)| <
      decToRat p - decToRat (longStopLossRaw p pctDn)) :
    (decToRat p < decToRat (submittedLongTP p pctUp inc) ∧
      decToRat (submittedLongSL p pctDn inc) < decToRat p) ∧
    (decToRat (submittedShortTP p pctDn inc) < decToRat p ∧
      decToRat p < decToRat (submittedShortSL p pctUp inc)) := by
  have h1 := (abs_lt.mp hTP).1
  have h2 := (abs_lt.mp hSL).2
  have hshortTP : submittedShortTP p pctDn inc = submittedLongSL p pctDn inc := rfl
  have hshortSL : submittedShortSL p pctUp inc = submittedLongTP p pctUp inc := rfl
  exact ⟨⟨by linarith, by linarith⟩, by rw [hshortTP]; linarith, by rw [hshortSL]; linarith⟩

/-- Witness for C4 (amended): at price `100`, tp `2 %`, sl `1 %`, tick
`0.05`, quantization moves each leg by about `4·10⁻¹⁷`, far less than
the raw offsets (≈ 2 and ≈ 1), and the submitted prices `102` and `99`
straddle the entry price in the right order, for both directions. -/
theorem bracket_order_amended_witness :
    (decToRat (ofInt 100) < decToRat (submittedLongTP (ofInt 100) dec_0_02 ⟨5, -2⟩) ∧
      decToRat (submittedLongSL (ofInt 100) dec_0_01 ⟨5, -2⟩) < decToRat (ofInt 100)) ∧
    (decToRat (submittedShortTP (ofInt 100) dec_0_01 ⟨5, -2⟩) < decToRat (ofInt 100) ∧
      decToRat (ofInt 100) < decToRat (submittedShortSL (ofInt 100) dec_0_02 ⟨5, -2⟩)) := by
  have hrTP : longTakeProfitRaw (ofInt 100) dec_0_02 =
      ⟨1020000000000000000416333634, -25⟩ := by decide
  have hsTP : submittedLongTP (ofInt 100) dec_0_02 ⟨5, -2⟩ = ⟨10200, -2⟩ := by decide
  have hrSL : longStopLossRaw (ofInt 100) dec_0_01 =
      ⟨9899999999999999997918331829, -26⟩ := by decide
  have hsSL : submittedLongSL (ofInt 100) dec_0_01 ⟨5, -2⟩ = ⟨9900, -2⟩ := by decide
  refine bracket_order_amended (ofInt 100) dec_0_02 dec_0_01 ⟨5, -2⟩ ?_ ?_
  · rw [hrTP, hsTP, decToRat_ofInt, decToRat_mk, decToRat_mk,
      abs_of_nonpos (by norm_num)]
    norm_num
  · rw [hrSL, hsSL, decToRat_ofInt, decToRat_mk, decToRat_mk,
      abs_of_nonneg (by norm_num)]
    norm_num

theorem exceptBind_ok {E A B : Type} (a : A) (f : A → Except E B) :
    (Except.ok a >>= f) = f a := rfl

theorem exceptBind_error {E A B : Type} (e : E) (f : A → Except E B) :
    ((Except.error e : Except E A) >>= f) = Except.error e := rfl

theorem exceptPure_bind {E A B : Type} (a : A) (f : A → Except E B) :
    ((pure a : Except E A) >>= f) = f a := rfl

theorem ilocNeg_oob (l : List ℚ) (k : ℕ) (h : l.length ≤ k) :
    ilocNeg l k = .error () := by
  rw [ilocNeg, dif_neg]
  omega

theorem ilocNeg_last (a : ℚ) : ilocNeg [a] 0 = .ok a := rfl

/-- C8 (counterexample): a ticker whose indicator series has a single
sample makes both crossover strategies raise an `IndexError` instead of
skipping the ticker: the stochastic-RSI strategy reads `iloc[-2]`
first, and the moving-average strategy reads it as soon as the latest
EMA comparison holds (here `2 > 1`). -/
theorem crossover_short_series_counterexample :
    stoch_rsi_get_stock_actions (fun _ => ([1], [1])) ["X"] = .error () ∧
    moving_average_get_stock_actions (fun _ => ([2], [1])) ["X"] = .error () := by
  constructor
  · rfl
  · rfl

/-- C8 (amended): a ticker with fewer than two indicator samples makes
the crossover strategies raise an index error (aborting the whole
batch) whenever the second-latest sample is read — always for the
stochastic-RSI strategy, and for the moving-average strategy whenever
the latest short and long EMA values differ (or the series is empty);
only when the latest values are equal does the moving-average strategy
skip the one-sample ticker without a signal and without an error. -/
theorem crossover_short_series_amended :
    (∀ ks ds : List ℚ, ks.length < 2 → stochRsiActionsForStock ks ds = .error ()) ∧
    (∀ a b : ℚ, a ≠ b → maActionsForStock [a] [b] = .error ()) ∧
    (∀ a : ℚ, maActionsForStock [a] [a] = .ok []) ∧
    (∀ ls : List ℚ, maActionsForStock [] ls = .error ()) := by
  refine ⟨fun ks ds h => ?_, fun a b hne => ?_, fun a => ?_, fun ls => ?_⟩
  · unfold stochRsiActionsForStock
    rw [ilocNeg_oob ks 1 (by omega)]
    rfl
  · unfold maActionsForStock
    rcases hne.lt_or_lt with h | h
    · simp [ilocNeg_last, exceptBind_ok, exceptPure_bind, exceptBind_error, h, h.not_lt,
        ilocNeg_oob [a] 1 (by simp)]
    · simp [ilocNeg_last, exceptBind_ok, exceptPure_bind, exceptBind_error, h, h.not_lt,
        ilocNeg_oob [a] 1 (by simp)]
  · unfold maActionsForStock
    simp [ilocNeg_last, exceptBind_ok, exceptPure_bind, lt_self_iff_false]
    rfl
  · unfold maActionsForStock
    rw [ilocNeg_oob [] 0 (by simp)]
    rfl

/-- Witness for C8 (amended): concrete one-sample and empty series. -/
theorem crossover_short_series_amended_witness :
    stochRsiActionsForStock [1] [1] = .error () ∧
    maActionsForStock [2] [1] = .error () ∧
    maActionsForStock [3] [3] = .ok [] ∧
    maActionsForStock [] [] = .error () :=
  ⟨crossover_short_series_amended.1 [1] [1] (by norm_num),
    crossover_short_series_amended.2.1 2 1 (by norm_num),
    crossover_short_series_amended.2.2.1 3,
    crossover_short_series_amended.2.2.2 []⟩
